import Mathlib

/-!
Verification of the glerbl hook configuration of mangalam-research/salve
(`src/.glerbl/repo_conf.py`) and of the check-runner core it configures.

The configuration file is embedded verbatim (`repoConfSource`, `checks`,
`repoConfModule`).  The runner, registry and check contract are not part
of the repository sources; they are modelled from the specification.
-/

namespace Glerbl

/-- The exact text of `src/.glerbl/repo_conf.py`, line by line.  The file
ends without a trailing newline after the final brace. -/
def repoConfSource : String :=
  "checks = \x7b\n"
  ++ "    \x27pre-commit\x27: [\n"
  ++ "        # BEFORE_COMMIT in the root of the working tree can be used as\n"
  ++ "        # reminder to do something before the next commit.\n"
  ++ "        \"no_before_commit\",\n"
  ++ "\n"
  ++ "        # We only allow ASCII filenames.\n"
  ++ "        \"no_non_ascii_filenames\",\n"
  ++ "\n"
  ++ "        # We don\x27t allow trailing whitespaces.\n"
  ++ "        \"no_trailing_whitespace\",\n"
  ++ "    ]\n"
  ++ "\x7d"

/-- Split a character sequence at newline characters; the result lists
the lines of the text, a final unterminated line included. -/
def splitLines : List Char → List (List Char)
  | [] => [[]]
  | c :: cs =>
    let rest := splitLines cs
    if c = '\n' then [] :: rest
    else
      match rest with
      | [] => [[c]]
      | l :: ls => (c :: l) :: ls

/-- Number of lines of the source artifact: the newline-separated pieces
of its text. -/
def sourceLineCount : Nat :=
  (splitLines repoConfSource.data).length

/-- The `checks` mapping defined by `repo_conf.py`: hook name to ordered
list of check identifiers, insertion order preserved. -/
def checks : List (String × List String) :=
  [("pre-commit",
    ["no_before_commit",
     "no_non_ascii_filenames",
     "no_trailing_whitespace"])]

/-- Association-list lookup, first binding wins (Python dict access on a
dict without duplicate keys). -/
def lookupList {α : Type} (l : List (String × α)) (k : String) : Option α :=
  match l with
  | [] => none
  | (k₀, v) :: rest => if k₀ = k then some v else lookupList rest k

/-- A Python top-level value, as far as this module needs: strings,
lists, dicts with string keys, and function objects.  The grammar keeps a
function constructor so that "the module defines no function" is a real
statement about the embedded module, not true by construction. -/
inductive PyValue where
  | str : String → PyValue
  | list : List PyValue → PyValue
  | dict : List (String × PyValue) → PyValue
  | func : String → PyValue
deriving Repr

mutual

/-- A value is pure data when no function object occurs anywhere in it. -/
def PyValue.isData : PyValue → Bool
  | .str _ => true
  | .list vs => pyListIsData vs
  | .dict kvs => pyDictIsData kvs
  | .func _ => false

/-- All values of a list are pure data. -/
def pyListIsData : List PyValue → Bool
  | [] => true
  | v :: vs => v.isData && pyListIsData vs

/-- All values of a dict are pure data. -/
def pyDictIsData : List (String × PyValue) → Bool
  | [] => true
  | (_, v) :: kvs => v.isData && pyDictIsData kvs

end

/-- A value is a string literal. -/
def PyValue.isStr : PyValue → Bool
  | .str _ => true
  | _ => false

/-- A value is a hook mapping: a dict whose every entry binds a string
key to a list of string identifiers. -/
def isHookMapping : PyValue → Bool
  | .dict kvs => kvs.all (fun kv => match kv.2 with
      | .list vs => vs.all PyValue.isStr
      | _ => false)
  | _ => false

/-- The top-level bindings of the module `repo_conf.py`, embedded from
the source: a single assignment of a dict literal to the name `checks`. -/
def repoConfModule : List (String × PyValue) :=
  [("checks",
    PyValue.dict
      [("pre-commit",
        PyValue.list
          [PyValue.str ("no_before_commit"),
           PyValue.str ("no_non_ascii_filenames"),
           PyValue.str ("no_trailing_whitespace")])])]

/-- C1: the configuration binds the hook name pre-commit to exactly the
three check identifiers in source order, and binds no other hook name. -/
theorem checks_binds_exactly_pre_commit :
    lookupList checks ("pre-commit")
      = some ["no_before_commit", "no_non_ascii_filenames",
              "no_trailing_whitespace"]
    ∧ checks.map Prod.fst = ["pre-commit"] := by
  decide

/-- C9: the source artifact is exactly 13 lines long. -/
theorem repoConf_is_13_lines : sourceLineCount = 13 := by
  decide

/-- C10: the three identifiers bound to pre-commit are pairwise
distinct, so no check is scheduled twice in one invocation. -/
theorem pre_commit_ids_nodup :
    ((lookupList checks ("pre-commit")).getD []).Nodup := by
  decide

/-- C7: the module is pure data: it defines exactly the single name
`checks`, whose value is a dict of string hook names to lists of string
identifiers, and no function object occurs anywhere in its bindings. -/
theorem repoConfModule_is_pure_data :
    repoConfModule.map Prod.fst = ["checks"]
    ∧ lookupList repoConfModule ("checks")
        = some (PyValue.dict
            [("pre-commit",
              PyValue.list
                [PyValue.str ("no_before_commit"),
                 PyValue.str ("no_non_ascii_filenames"),
                 PyValue.str ("no_trailing_whitespace")])])
    ∧ pyDictIsData repoConfModule = true
    ∧ repoConfModule.all (fun b => isHookMapping b.2) = true := by
  refine ⟨rfl, rfl, rfl, rfl⟩

/-- Modelled from the spec: outcome status of one check execution
(section 3, Result). -/
inductive Status where
  | pass : Status
  | fail : Status
  | error : Status
deriving DecidableEq, Repr

/-- Modelled from the spec: Result of one check execution: a status, a
human-readable message and the list of offending locations (section 3). -/
structure Result where
  status : Status
  message : String
  locations : List String
deriving DecidableEq, Repr

/-- Modelled from the spec: the working-tree context handed to checks:
root path, names of the files at the working-tree root, the staged or
changed file paths, and a content accessor giving each file its lines
(section 4.1). -/
structure Context where
  rootPath : String
  rootFiles : List String
  changedPaths : List String
  contents : List (String × List String)
deriving DecidableEq, Repr

/-- Modelled from the spec: a Check executes against a context and
yields its one Result together with the working tree left behind
(section 4.1; the contract demands the tree is left unchanged). -/
abbrev CheckFun : Type := Context → Result × Context

/-- Modelled from the spec: a Check: stable identifier, description for
diagnostics, and its execution capability (section 3). -/
structure Check where
  identifier : String
  description : String
  run : CheckFun

/-- Modelled from the spec: the check registry, a mapping from
identifier to Check built once at process start (section 4.2). -/
abbrev Registry : Type := List Check

/-- Modelled from the spec: registry resolution; yields the first Check
registered under the identifier, none when unknown (section 4.2). -/
def resolve (reg : Registry) (id : String) : Option Check :=
  match reg with
  | [] => none
  | c :: rest => if c.identifier = id then some c else resolve rest id

/-- Modelled from the spec: the no_before_commit check fails when the
reminder marker file BEFORE_COMMIT exists at the working-tree root; the
message names the file (section 4.1). -/
def noBeforeCommitRun : CheckFun := fun ctx =>
  (if ctx.rootFiles.contains ("BEFORE_COMMIT") then
    { status := Status.fail,
      message := "BEFORE_COMMIT exists in the root of the working tree",
      locations := ["BEFORE_COMMIT"] }
   else
    { status := Status.pass, message := "", locations := [] },
   ctx)

/-- A character lies in the printable ASCII range. -/
def charPrintableAscii (c : Char) : Bool :=
  32 ≤ c.toNat && c.toNat ≤ 126

/-- A file path holds only printable ASCII characters. -/
def pathAllAscii (p : String) : Bool :=
  p.data.all charPrintableAscii

/-- The changed paths of a context that hold a character outside the
printable ASCII range, in context order. -/
def nonAsciiOffenders (ctx : Context) : List String :=
  ctx.changedPaths.filter (fun p => !(pathAllAscii p))

/-- Modelled from the spec: the no_non_ascii_filenames check fails when
any changed file path holds a byte outside the printable ASCII range;
the message lists every offending path (section 4.1). -/
def noNonAsciiFilenamesRun : CheckFun := fun ctx =>
  (match nonAsciiOffenders ctx with
   | [] => { status := Status.pass, message := "", locations := [] }
   | off =>
     { status := Status.fail,
       message := "non-ASCII filenames are not allowed",
       locations := off },
   ctx)

/-- A line ends in a whitespace character. -/
def lineHasTrailingWs (l : String) : Bool :=
  match l.data.getLast? with
  | some c => c.isWhitespace
  | none => false

/-- The offending locations of one file: a path:lineNumber entry for
every line of the file ending in whitespace, line numbers from 1. -/
def fileWsOffenders (p : String) (ls : List String) : List String :=
  (ls.enum.filter (fun il => lineHasTrailingWs il.2)).map
    (fun il => p ++ ":" ++ toString (il.1 + 1))

/-- Every trailing-whitespace violation of the changed files of a
context, in context order. -/
def trailingWsOffenders (ctx : Context) : List String :=
  ctx.changedPaths.flatMap
    (fun p => fileWsOffenders p ((lookupList ctx.contents p).getD []))

/-- Modelled from the spec: the no_trailing_whitespace check fails when
any changed text file holds a line ending in whitespace; the message
lists every offending file and line number (section 4.1). -/
def noTrailingWhitespaceRun : CheckFun := fun ctx =>
  (match trailingWsOffenders ctx with
   | [] => { status := Status.pass, message := "", locations := [] }
   | off =>
     { status := Status.fail,
       message := "trailing whitespace is not allowed",
       locations := off },
   ctx)

/-- Modelled from the spec: the run-aborting error class: unknown check
identifier or malformed hook configuration (section 7,
ConfigurationError). -/
inductive RunError where
  | configurationError : String → RunError
deriving DecidableEq, Repr

/-- Modelled from the spec: the RunReport, the ordered aggregate of all
Results of one hook invocation (section 3). -/
structure RunReport where
  results : List Result
deriving DecidableEq, Repr

/-- Modelled from the spec: the derived overall verdict of a report:
Pass iff every Result is Pass, any Fail or Error yields an overall Fail
(sections 3 and 4.3). -/
def RunReport.verdict (r : RunReport) : Status :=
  if r.results.all (fun res => res.status = Status.pass) then Status.pass
  else Status.fail

/-- Modelled from the spec: resolution of a whole configuration list,
failing with a ConfigurationError on the first identifier absent from
the registry, before any check executes (section 4.3). -/
def resolveAll (reg : Registry) (ids : List String) :
    Except RunError (List Check) :=
  match ids with
  | [] => Except.ok []
  | id :: rest =>
    match resolve reg id with
    | none => Except.error (RunError.configurationError id)
    | some c =>
      match resolveAll reg rest with
      | Except.error e => Except.error e
      | Except.ok cs => Except.ok (c :: cs)

/-- Modelled from the spec: sequential fail-slow execution: every
resolved check runs against the context, in list order, each Result
collected in order (section 4.3). -/
def execChecks (cs : List Check) (ctx : Context) : List Result :=
  cs.map (fun c => (c.run ctx).1)

/-- Modelled from the spec: the Runner: look the hook up in the
configuration, resolve every identifier before any check executes,
then execute all checks in order and collect the report.  The second
component records which checks actually executed (section 4.3). -/
def runHook (config : List (String × List String)) (reg : Registry)
    (hook : String) (ctx : Context) :
    Except RunError RunReport × List String :=
  match lookupList config hook with
  | none => (Except.error (RunError.configurationError hook), [])
  | some ids =>
    match resolveAll reg ids with
    | Except.error e => (Except.error e, [])
    | Except.ok cs => (Except.ok { results := execChecks cs ctx }, ids)

/-- The registry holding the three checks the configuration names. -/
def sampleRegistry : Registry :=
  [{ identifier := "no_before_commit",
     description := "no BEFORE_COMMIT reminder file at the root",
     run := noBeforeCommitRun },
   { identifier := "no_non_ascii_filenames",
     description := "changed file paths are printable ASCII",
     run := noNonAsciiFilenamesRun },
   { identifier := "no_trailing_whitespace",
     description := "no changed line ends in whitespace",
     run := noTrailingWhitespaceRun }]

/-- A context exercising all three checks: the reminder file is present,
one changed path holds a non-ASCII character, and one changed file has a
line ending in a space. -/
def sampleCtx : Context :=
  { rootPath := "/repo",
    rootFiles := ["BEFORE_COMMIT", "README"],
    changedPaths := ["f.txt", "café.txt"],
    contents := [("f.txt", ["x ", "ok"])] }

/-- A passing Result. -/
def passResult : Result :=
  { status := Status.pass, message := "", locations := [] }

/-- A failing Result. -/
def failResult : Result :=
  { status := Status.fail, message := "violation", locations := ["x"] }

theorem resolveAll_ok_length {reg : Registry} :
    ∀ {ids : List String} {cs : List Check},
      resolveAll reg ids = Except.ok cs → cs.length = ids.length := by
  intro ids
  induction ids with
  | nil =>
    intro cs h
    simp only [resolveAll] at h
    cases h
    rfl
  | cons id₀ rest ih =>
    intro cs h
    simp only [resolveAll] at h
    cases hres : resolve reg id₀ with
    | none => rw [hres] at h; cases h
    | some c =>
      rw [hres] at h
      cases hrec : resolveAll reg rest with
      | error e => rw [hrec] at h; cases h
      | ok cs₀ =>
        rw [hrec] at h
        cases h
        simp [ih hrec]

theorem resolveAll_ok_getElem {reg : Registry} :
    ∀ {ids : List String} {cs : List Check},
      resolveAll reg ids = Except.ok cs →
      ∀ (i : Nat) (id : String), ids[i]? = some id →
        ∃ c, resolve reg id = some c ∧ cs[i]? = some c := by
  intro ids
  induction ids with
  | nil =>
    intro cs _ i id hid
    simp at hid
  | cons id₀ rest ih =>
    intro cs h i id hid
    simp only [resolveAll] at h
    cases hres : resolve reg id₀ with
    | none => rw [hres] at h; cases h
    | some c =>
      rw [hres] at h
      cases hrec : resolveAll reg rest with
      | error e => rw [hrec] at h; cases h
      | ok cs₀ =>
        rw [hrec] at h
        cases h
        cases i with
        | zero =>
          simp only [List.getElem?_cons_zero] at hid
          injection hid with h
          subst h
          exact ⟨c, hres, by simp⟩
        | succ i₀ =>
          simp only [List.getElem?_cons_succ] at hid ⊢
          exact ih hrec i₀ id hid

theorem resolveAll_unknown {reg : Registry} :
    ∀ {ids : List String} {id : String}, id ∈ ids → resolve reg id = none →
      ∃ bad, resolve reg bad = none
        ∧ resolveAll reg ids
            = Except.error (RunError.configurationError bad) := by
  intro ids
  induction ids with
  | nil =>
    intro id hmem _
    exact absurd hmem (List.not_mem_nil id)
  | cons id₀ rest ih =>
    intro id hmem hunk
    cases hres : resolve reg id₀ with
    | none => exact ⟨id₀, hres, by simp [resolveAll, hres]⟩
    | some c =>
      have hid : id ∈ rest := by
        cases List.mem_cons.mp hmem with
        | inl heq =>
          subst heq
          rw [hres] at hunk
          exact Option.noConfusion hunk
        | inr h => exact h
      obtain ⟨bad, hbad, herr⟩ := ih hid hunk
      exact ⟨bad, hbad, by simp [resolveAll, hres, herr]⟩

theorem verdict_pass_iff {r : RunReport} :
    r.verdict = Status.pass ↔ ∀ res ∈ r.results, res.status = Status.pass := by
  unfold RunReport.verdict
  split
  · rename_i hall
    simp only [List.all_eq_true, decide_eq_true_eq] at hall
    exact iff_of_true rfl hall
  · rename_i hall
    simp only [List.all_eq_true, decide_eq_true_eq] at hall
    constructor
    · intro h; exact Status.noConfusion h
    · intro hp; exact absurd hp hall

/-- C4: the overall verdict of a report is Pass iff every one of its
Results is Pass, and replacing any single Result, at any position, by a
Fail or Error Result makes the verdict Fail. -/
theorem verdict_pass_iff_all_results_pass (r : RunReport) :
    (r.verdict = Status.pass ↔ ∀ res ∈ r.results, res.status = Status.pass)
    ∧ ∀ i res, i < r.results.length → res.status ≠ Status.pass →
        RunReport.verdict { results := r.results.set i res }
          = Status.fail := by
  refine ⟨verdict_pass_iff, ?_⟩
  intro i res hi hne
  have hmem : res ∈ r.results.set i res := List.mem_set r.results i hi res
  unfold RunReport.verdict
  rw [if_neg]
  intro hall
  simp only [List.all_eq_true, decide_eq_true_eq] at hall
  exact hne (hall res hmem)

/-- Witness for C4 at a concrete one-Result report. -/
theorem verdict_pass_iff_all_results_pass_witness :
    RunReport.verdict
        { results := ({ results := [passResult] } : RunReport).results.set 0
            failResult }
      = Status.fail :=
  (verdict_pass_iff_all_results_pass { results := [passResult] }).2 0
    failResult (by decide) (by decide)

/-- C5: when every identifier of the hook's configuration list resolves,
the Runner produces a report holding exactly one Result per identifier,
ordered exactly as the identifiers appear: the i-th Result is the run of
the check the i-th identifier resolves to. -/
theorem runHook_report_matches_config (config : List (String × List String))
    (reg : Registry) (hook : String) (ctx : Context) (ids : List String)
    (cs : List Check) (hcfg : lookupList config hook = some ids)
    (hok : resolveAll reg ids = Except.ok cs) :
    ∃ report, runHook config reg hook ctx = (Except.ok report, ids)
      ∧ report.results.length = ids.length
      ∧ ∀ (i : Nat) (id : String), ids[i]? = some id →
          ∃ c, resolve reg id = some c
            ∧ report.results[i]? = some ((c.run ctx).1) := by
  refine ⟨{ results := execChecks cs ctx }, ?_, ?_, ?_⟩
  · simp [runHook, hcfg, hok]
  · simp [execChecks, resolveAll_ok_length hok]
  · intro i id hid
    obtain ⟨c, hres, hcs⟩ := resolveAll_ok_getElem hok i id hid
    exact ⟨c, hres, by simp [execChecks, List.getElem?_map, hcs]⟩

/-- Witness for C5 on the repository configuration, the full registry
and a concrete context. -/
theorem runHook_report_matches_config_witness :
    ∃ report,
      runHook checks sampleRegistry ("pre-commit") sampleCtx
          = (Except.ok report,
             ["no_before_commit", "no_non_ascii_filenames",
              "no_trailing_whitespace"])
        ∧ report.results.length
            = (["no_before_commit", "no_non_ascii_filenames",
                "no_trailing_whitespace"] : List String).length
        ∧ ∀ (i : Nat) (id : String),
            (["no_before_commit", "no_non_ascii_filenames",
              "no_trailing_whitespace"] : List String)[i]? = some id →
            ∃ c, resolve sampleRegistry id = some c
              ∧ report.results[i]? = some ((c.run sampleCtx).1) :=
  runHook_report_matches_config checks sampleRegistry ("pre-commit")
    sampleCtx
    ["no_before_commit", "no_non_ascii_filenames", "no_trailing_whitespace"]
    sampleRegistry rfl rfl

/-- C2: fail-slow aggregation: when all identifiers resolve, a non-Pass
Result at an earlier position never prevents a later check from running:
the later position still holds exactly the Result of running that
check. -/
theorem fail_slow_all_checks_execute (reg : Registry) (ids : List String)
    (ctx : Context) (cs : List Check) (i j : Nat)
    (hok : resolveAll reg ids = Except.ok cs) (_hji : j < i)
    (hi : i < ids.length)
    (_hfail : ∃ rj, (execChecks cs ctx)[j]? = some rj
        ∧ rj.status ≠ Status.pass) :
    ∃ c, cs[i]? = some c
      ∧ (execChecks cs ctx)[i]? = some ((c.run ctx).1) := by
  have hlen := resolveAll_ok_length hok
  have hi' : i < cs.length := by rw [hlen]; exact hi
  have hc : cs[i]? = some (cs.get ⟨i, hi'⟩) := by
    simp [List.getElem?_eq_getElem hi']
  exact ⟨cs.get ⟨i, hi'⟩, hc, by simp [execChecks, List.getElem?_map, hc]⟩

/-- Witness for C2: the first configured check fails on the sample
context, the third still executes. -/
theorem fail_slow_all_checks_execute_witness :
    ∃ c, sampleRegistry[2]? = some c
      ∧ (execChecks sampleRegistry sampleCtx)[2]?
          = some ((c.run sampleCtx).1) :=
  fail_slow_all_checks_execute sampleRegistry
    ["no_before_commit", "no_non_ascii_filenames", "no_trailing_whitespace"]
    sampleCtx sampleRegistry 2 0 rfl (by decide) (by decide)
    ⟨(noBeforeCommitRun sampleCtx).1, rfl, by decide⟩

/-- C3: a configuration naming an identifier absent from the registry
makes the Runner fail with a ConfigurationError naming an unresolvable
identifier; no report is produced and zero checks execute. -/
theorem unknown_identifier_aborts_run (config : List (String × List String))
    (reg : Registry) (hook : String) (ctx : Context) (ids : List String)
    (id : String) (hcfg : lookupList config hook = some ids)
    (hmem : id ∈ ids) (hunk : resolve reg id = none) :
    ∃ bad, resolve reg bad = none
      ∧ runHook config reg hook ctx
          = (Except.error (RunError.configurationError bad), []) := by
  obtain ⟨bad, hbad, herr⟩ := resolveAll_unknown hmem hunk
  exact ⟨bad, hbad, by simp [runHook, hcfg, herr]⟩

/-- Witness for C3 at the identifier no_such_check, absent from the
registry. -/
theorem unknown_identifier_aborts_run_witness :
    ∃ bad, resolve sampleRegistry bad = none
      ∧ runHook [("pre-commit", ["no_such_check"])] sampleRegistry
            ("pre-commit") sampleCtx
          = (Except.error (RunError.configurationError bad), []) :=
  unknown_identifier_aborts_run [("pre-commit", ["no_such_check"])]
    sampleRegistry ("pre-commit") sampleCtx ["no_such_check"]
    ("no_such_check") rfl (by simp) rfl

/-- C8: every modelled check is read-only on the working tree: its run
returns the context it was given, unchanged. -/
theorem checks_leave_tree_unchanged (ctx : Context) :
    (noBeforeCommitRun ctx).2 = ctx
    ∧ (noNonAsciiFilenamesRun ctx).2 = ctx
    ∧ (noTrailingWhitespaceRun ctx).2 = ctx :=
  ⟨rfl, rfl, rfl⟩

/-- Witness for C8 at the sample context. -/
theorem checks_leave_tree_unchanged_witness :
    (noBeforeCommitRun sampleCtx).2 = sampleCtx :=
  (checks_leave_tree_unchanged sampleCtx).1

/-- C6: each modelled check is deterministic and exhaustive: running it
again on the tree it left behind yields the identical Result, and its
Fail Result enumerates every violation present in the context: the
reminder file when present, every non-ASCII changed path, and every
trailing-whitespace line of every changed file. -/
theorem checks_deterministic_and_exhaustive :
    (∀ ctx : Context,
        (noBeforeCommitRun ((noBeforeCommitRun ctx).2)).1
            = (noBeforeCommitRun ctx).1
        ∧ (noNonAsciiFilenamesRun ((noNonAsciiFilenamesRun ctx).2)).1
            = (noNonAsciiFilenamesRun ctx).1
        ∧ (noTrailingWhitespaceRun ((noTrailingWhitespaceRun ctx).2)).1
            = (noTrailingWhitespaceRun ctx).1)
    ∧ (∀ ctx : Context, "BEFORE_COMMIT" ∈ ctx.rootFiles →
        "BEFORE_COMMIT" ∈ ((noBeforeCommitRun ctx).1).locations)
    ∧ (∀ (ctx : Context) (p : String), p ∈ ctx.changedPaths →
        pathAllAscii p = false →
        p ∈ ((noNonAsciiFilenamesRun ctx).1).locations)
    ∧ (∀ (ctx : Context) (p : String) (i : Nat) (ls : List String)
          (l : String),
        p ∈ ctx.changedPaths → lookupList ctx.contents p = some ls →
        ls[i]? = some l → lineHasTrailingWs l = true →
        (p ++ ":" ++ toString (i + 1))
          ∈ ((noTrailingWhitespaceRun ctx).1).locations) := by
  refine ⟨fun ctx => ⟨rfl, rfl, rfl⟩, ?_, ?_, ?_⟩
  · intro ctx h
    simp [noBeforeCommitRun, h]
  · intro ctx p hp hpa
    have hmem : p ∈ nonAsciiOffenders ctx :=
      List.mem_filter.mpr ⟨hp, by simp [hpa]⟩
    cases hoff : nonAsciiOffenders ctx with
    | nil => rw [hoff] at hmem; exact absurd hmem (List.not_mem_nil p)
    | cons q qs =>
      have hloc : ((noNonAsciiFilenamesRun ctx).1).locations = q :: qs := by
        simp [noNonAsciiFilenamesRun, hoff]
      rw [hloc, ← hoff]
      exact hmem
  · intro ctx p i ls l hp hls hline hws
    have h₁ : (i, l) ∈ ls.enum :=
      List.mk_mem_enum_iff_getElem?.mpr (by simp [hline])
    have h₂ : (i, l) ∈ ls.enum.filter (fun il => lineHasTrailingWs il.2) :=
      List.mem_filter.mpr ⟨h₁, by simpa using hws⟩
    have h₃ : (p ++ ":" ++ toString (i + 1)) ∈ fileWsOffenders p ls := by
      unfold fileWsOffenders
      exact List.mem_map.mpr ⟨(i, l), h₂, rfl⟩
    have h₄ : (p ++ ":" ++ toString (i + 1)) ∈ trailingWsOffenders ctx := by
      unfold trailingWsOffenders
      refine List.mem_flatMap_of_mem hp ?_
      simp only [hls, Option.getD_some]
      exact h₃
    cases hoff : trailingWsOffenders ctx with
    | nil => rw [hoff] at h₄; exact absurd h₄ (List.not_mem_nil _)
    | cons q qs =>
      have hloc : ((noTrailingWhitespaceRun ctx).1).locations = q :: qs := by
        simp [noTrailingWhitespaceRun, hoff]
      rw [hloc, ← hoff]
      exact h₄

/-- Witness for C6: the sample context's changed file f.txt has a
trailing space on its first line, and the check's Result lists it. -/
theorem checks_deterministic_and_exhaustive_witness :
    ("f.txt" ++ ":" ++ toString (0 + 1))
        ∈ ((noTrailingWhitespaceRun sampleCtx).1).locations :=
  checks_deterministic_and_exhaustive.2.2.2 sampleCtx ("f.txt") 0
    ["x ", "ok"] ("x ") (by decide) rfl rfl (by decide)

end Glerbl
